import Mathlib

set_option maxHeartbeats 1000000

/-!
Shallow embedding of `dynetx/readwrite/edgelist.py` (temporal edge-list
reading and writing for DyNetx graphs).

Python strings are modelled as `List Char` (`PyStr`).  The external graph
collaborator (`DynGraph`), the stringification helper (`make_str`) and the
ordinal-index helper (`clean_timeslot`) are not part of the source under
analysis; definitions for them below are marked `Modelled from the spec:`.
Fallible Python code (raising `TypeError`, `KeyError`, `ValueError`,
`IndexError`) is modelled with `Except PyErr`.

Modelling conventions, mirroring the source:
* the `delimiter` argument is left at its default `None`, i.e. splitting on
  runs of whitespace (all claims use whitespace-delimited input);
* a line is represented without its trailing newline; `read_ids`, which
  inspects `len(line)` of the raw line (newline included), therefore
  compares `line.length + 1`;
* `timestamptype`, when supplied, is an integer-valued converter (every
  claim that reaches a timestamp comparison or a `range` expansion uses
  integer timestamps); a line's timestamp value is an `int` when a
  converter is supplied and a `str` otherwise (`PyVal`).
-/

/-- Python strings modelled as lists of characters. -/
abbrev PyStr := List Char

/-- Whitespace as split by Python `str.split(None)` (the characters that can
occur in the modelled inputs). -/
def isWS (c : Char) : Bool := c == ' ' || c == '\t' || c == '\n' || c == '\r'

/-- Worker for whitespace splitting: `acc` holds the reversed current token. -/
def splitWSGo : PyStr → PyStr → List PyStr
  | [], acc => if acc = [] then [] else [acc.reverse]
  | c :: cs, acc =>
    if isWS c then
      if acc = [] then splitWSGo cs [] else acc.reverse :: splitWSGo cs []
    else splitWSGo cs (c :: acc)

/-- Python `str.split(None)`: split on runs of whitespace, no empty tokens. -/
def pySplitWS (s : PyStr) : List PyStr := splitWSGo s []

/-- Python `str.rstrip()` / right half of `str.strip()`. -/
def dropEndWS (s : PyStr) : PyStr := (s.reverse.dropWhile isWS).reverse

/-- Python `str.strip()`. -/
def pyStrip (s : PyStr) : PyStr := dropEndWS (s.dropWhile isWS)

/-- Boolean list-prefix test (used by the substring search). -/
def isPre : PyStr → PyStr → Bool
  | [], _ => true
  | _ :: _, [] => false
  | a :: as, b :: bs => a == b && isPre as bs

/-- Python `str.find(pat)`: index of the first occurrence of `pat` as a
substring, `none` when absent (Python returns `-1`). -/
def findSub : PyStr → PyStr → Option Nat
  | pat, [] => if pat = [] then some 0 else none
  | pat, c :: cs =>
    if isPre pat (c :: cs) then some 0
    else (findSub pat cs).map (· + 1)

/-- Comment stripping in `parse_interactions` / `parse_snapshots`:
`p = line.find(comments); if p >= 0: line = line[:p]`. -/
def stripComment (comments line : PyStr) : PyStr :=
  match findSub comments line with
  | some p => line.take p
  | none => line

/-- Tokenization shared by both parsers.  The source first skips lines that
are empty after comment stripping (`if not len(line): continue`) and then
runs `line.strip().split(delimiter)`; an empty stripped line also splits to
`[]`, so the two checks collapse into the token count checks downstream. -/
def tokenizeLine (comments line : PyStr) : List PyStr :=
  pySplitWS (pyStrip (stripComment comments line))

/-- Dynamically-typed Python values that can flow into the graph as
timestamps: converted timestamps are ints, unconverted ones are strings. -/
inductive PyVal where
  | pint (i : Int)
  | pstr (s : PyStr)
deriving DecidableEq

/-- Lexicographic order on character lists (Python 2 `str < str`). -/
def strLtB : PyStr → PyStr → Bool
  | [], [] => false
  | [], _ :: _ => true
  | _ :: _, [] => false
  | a :: as, b :: bs =>
    if a < b then true else if b < a then false else strLtB as bs

/-- Python 2 `<` on the modelled values: ints compare numerically, strings
lexicographically, and any int is smaller than any string (Python 2 orders
mismatched types by type name, and `int` sorts before `str`). -/
def pyLtB : PyVal → PyVal → Bool
  | .pint a, .pint b => a < b
  | .pstr a, .pstr b => strLtB a b
  | .pint _, .pstr _ => true
  | .pstr _, .pint _ => false

/-- Python exceptions surfaced by the modelled code. -/
inductive PyErr where
  | typeErr (msg : PyStr)
  | keyErr (key : PyVal)
  | valueErr (msg : PyStr)
  | indexErr
deriving DecidableEq

instance {ε α : Type} [DecidableEq ε] [DecidableEq α] :
    DecidableEq (Except ε α) := fun x y =>
  match x, y with
  | .ok a, .ok b =>
    if h : a = b then isTrue (by rw [h])
    else isFalse (by intro he; cases he; exact h rfl)
  | .ok _, .error _ => isFalse (by intro he; cases he)
  | .error _, .ok _ => isFalse (by intro he; cases he)
  | .error e, .error f =>
    if h : e = f then isTrue (by rw [h])
    else isFalse (by intro he; cases he; exact h rfl)

/-- Modelled from the spec: the graph collaborator's per-pair edge activity
timeline, "for each node pair, an ordered sequence of timestamps during
which the edge was active", keyed by the node pair.  Represented as an
association list in first-registration order. -/
abbrev DynGraph := List ((PyStr × PyStr) × List PyVal)

/-- Timeline of a pair; `[]` when the pair has never been registered.  This
models the query `G.edge[u][v]['t']` of the source, per the spec: the
reconstructor reads the collaborator "to find the most recent recorded
start timestamp", and "no prior start exists" is a silent no-op. -/
def tLookup : DynGraph → (PyStr × PyStr) → List PyVal
  | [], _ => []
  | (q, ts) :: rest, p => if q = p then ts else tLookup rest p

/-- Ordered insertion without duplicates: registering an already-recorded
timestep leaves the timeline unchanged. -/
def insertVal (t : PyVal) : List PyVal → List PyVal
  | [] => [t]
  | x :: xs =>
    if pyLtB t x then t :: x :: xs
    else if t = x then x :: xs
    else x :: insertVal t xs

/-- Update of the association list at a pair. -/
def updG : DynGraph → (PyStr × PyStr) → PyVal → DynGraph
  | [], p, t => [(p, [t])]
  | (q, ts) :: rest, p, t =>
    if q = p then (q, insertVal t ts) :: rest else (q, ts) :: updG rest p t

/-- Modelled from the spec: `DynGraph.add_interaction(u, v, t)` registers
timestamp `t` on the activity timeline of pair `(u, v)`, keeping the
timeline an ordered duplicate-free sequence. -/
def add_interaction (G : DynGraph) (u v : PyStr) (t : PyVal) : DynGraph :=
  updG G (u, v) t

/-- Python `range(a, b)` over integers. -/
def intRange (a b : Int) : List Int :=
  if a < b then (List.range (b - a).toNat).map (fun (k : Nat) => a + (k : Int))
  else []

/-- A user-supplied timestamp-type constructor: its Python `repr` text plus
the conversion itself (`none` models a raised conversion error). -/
structure Conv where
  reprS : PyStr
  run : PyStr → Option Int

/-- A user-supplied node-type constructor (node values stay strings). -/
structure NodeConv where
  reprS : PyStr
  run : PyStr → Option PyStr

/-- Python `"%s" % nodetype` for the optional node converter. -/
def optNodeRepr : Option NodeConv → PyStr
  | none => "None".toList
  | some nc => nc.reprS

/-- Message of `TypeError("Failed to convert nodes %s,%s to type %s.")`. -/
def nodeFailMsg (u v r : PyStr) : PyStr :=
  "Failed to convert nodes ".toList ++ u ++ ",".toList ++ v
    ++ " to type ".toList ++ r ++ ".".toList

/-- Message of `TypeError("Failed to convert timestamp %s to type %s.")`.
The source interpolates `nodetype` (not `timestamptype`) into this message,
so the second argument is the node-converter text. -/
def tsFailMsg (s r : PyStr) : PyStr :=
  "Failed to convert timestamp ".toList ++ s ++ " to type ".toList
    ++ r ++ ".".toList

/-- Node conversion step shared by both parsers (`u` is rebound before `v`
is converted, as in the source). -/
def convNodes (nodeconv : Option NodeConv) (u v : PyStr) :
    Except PyErr (PyStr × PyStr) :=
  match nodeconv with
  | none => .ok (u, v)
  | some nc =>
    match nc.run u with
    | none => .error (.typeErr (nodeFailMsg u v nc.reprS))
    | some u2 =>
      match nc.run v with
      | none => .error (.typeErr (nodeFailMsg u2 v nc.reprS))
      | some v2 => .ok (u2, v2)

/-- Timestamp conversion step shared by both parsers.  On failure the raised
message interpolates the node converter, reproducing the source. -/
def convTs (nodeconv : Option NodeConv) (tsconv : Option Conv) (s : PyStr) :
    Except PyErr PyVal :=
  match tsconv with
  | none => .ok (.pstr s)
  | some tc =>
    match tc.run s with
    | none => .error (.typeErr (tsFailMsg s (optNodeRepr nodeconv)))
    | some i => .ok (.pint i)

/-- Lookup in the timestamp-ordinal mapping (an int-keyed Python dict). -/
def kLookup : List (Int × Int) → Int → Option Int
  | [], _ => none
  | (k, o) :: rest, t => if k = t then some o else kLookup rest t

/-- Python `keys[s]` where `keys` is int-keyed: a string subscript misses
every key (`KeyError`), an int subscript looks it up. -/
def kLookupVal (ks : List (Int × Int)) : PyVal → Option Int
  | .pint i => kLookup ks i
  | .pstr _ => none

/-- The `create_using` argument: either a supplied graph object or an object
on which `clear()` raises. -/
inductive CreateUsing (γ : Type) where
  | supplied (g : γ)
  | unclearable

/-- Message of the `TypeError` raised for a bad `create_using`. -/
def cuMsg : PyStr := "create_using input is not a DyNet graph type".toList

/-- Resolution of `create_using` at the top of both parsers: absent means a
fresh graph, a supplied graph is cleared (so parsing starts from the empty
graph either way), and an unclearable object raises `TypeError` before any
line is read. -/
def resolveCreate {γ : Type} (emptyG : γ) :
    Option (CreateUsing γ) → Except PyErr γ
  | none => .ok emptyG
  | some (.supplied _) => .ok emptyG
  | some .unclearable => .error (.typeErr cuMsg)

/-- The tokens `'+'` and `'-'`. -/
def plusTok : PyStr := ['+']

/-- The close-event token. -/
def minusTok : PyStr := ['-']

/-- Message of the `TypeError` raised by Python 2 `range` on non-ints. -/
def rangeTypeMsg : PyStr := "an integer is required".toList

/-- The close-record expansion loop of `parse_interactions`:
`for t in range(timestamps[-1], s): G.add_interaction(u, v, t=keys[t] or t)`. -/
def expandClose (keys : Option (List (Int × Int))) (u v : PyStr) :
    DynGraph → List Int → Except PyErr DynGraph
  | G, [] => .ok G
  | G, t :: ts =>
    match keys with
    | none => expandClose keys u v (add_interaction G u v (.pint t)) ts
    | some ks =>
      match kLookup ks t with
      | none => .error (.keyErr (.pint t))
      | some o => expandClose keys u v (add_interaction G u v (.pint o)) ts

/-- Processing of one four-field interaction record `(u, v, op, ts)`:
convert the node and timestamp fields, then register an opening (`+`) or
expand a close (any other operator token falls into the `else` branch, as
in the source). -/
def procIRec (nodeconv : Option NodeConv) (tsconv : Option Conv)
    (keys : Option (List (Int × Int))) (G : DynGraph)
    (u v op ts : PyStr) : Except PyErr DynGraph :=
  match convNodes nodeconv u v with
  | .error e => .error e
  | .ok (u2, v2) =>
    match convTs nodeconv tsconv ts with
    | .error e => .error e
    | .ok sv =>
      if op = plusTok then
        match keys with
        | none => .ok (add_interaction G u2 v2 sv)
        | some ks =>
          match kLookupVal ks sv with
          | none => .error (.keyErr sv)
          | some o => .ok (add_interaction G u2 v2 (.pint o))
      else
        match (tLookup G (u2, v2)).getLast? with
        | none => .ok G
        | some last =>
          if pyLtB last sv then
            match last, sv with
            | .pint a, .pint b => expandClose keys u2 v2 G (intRange a b)
            | _, _ => .error (.typeErr rangeTypeMsg)
          else .ok G

/-- Processing of one line of `parse_interactions`: strip comments, split,
silently skip any line without exactly four fields. -/
def procILine (cm : PyStr) (nodeconv : Option NodeConv) (tsconv : Option Conv)
    (keys : Option (List (Int × Int))) (G : DynGraph) (line : PyStr) :
    Except PyErr DynGraph :=
  match tokenizeLine cm line with
  | [u, v, op, ts] => procIRec nodeconv tsconv keys G u v op ts
  | _ => .ok G

/-- The line loop of `parse_interactions`; a raised error aborts the loop. -/
def runILines (cm : PyStr) (nodeconv : Option NodeConv) (tsconv : Option Conv)
    (keys : Option (List (Int × Int))) :
    DynGraph → List PyStr → Except PyErr DynGraph
  | G, [] => .ok G
  | G, l :: ls =>
    match procILine cm nodeconv tsconv keys G l with
    | .error e => .error e
    | .ok G2 => runILines cm nodeconv tsconv keys G2 ls

/-- `parse_interactions(lines, comments, delimiter=None, create_using,
nodetype, timestamptype, keys)`. -/
def parse_interactions (cm : PyStr) (nodeconv : Option NodeConv)
    (tsconv : Option Conv) (keys : Option (List (Int × Int)))
    (createUsing : Option (CreateUsing DynGraph)) (lines : List PyStr) :
    Except PyErr DynGraph :=
  match resolveCreate ([] : DynGraph) createUsing with
  | .error e => .error e
  | .ok G0 => runILines cm nodeconv tsconv keys G0 lines

/-- Modelled from the spec: the snapshot side of the graph collaborator
(one activity entry per registered record, with an optional edge-identifier
attribute), keyed by the node pair. -/
abbrev SnapGraph := List ((PyStr × PyStr) × List (PyVal × Option PyVal))

/-- Modelled from the spec: `add_interaction(u, v, t, e)` on the snapshot
side "registers each record directly as one activity entry with optional
edge identifier". -/
def add_interaction_snap (G : SnapGraph) (u v : PyStr) (t : PyVal)
    (e : Option PyVal) : SnapGraph :=
  match G with
  | [] => [((u, v), [(t, e)])]
  | (q, es) :: rest =>
    if q = (u, v) then (q, es ++ [(t, e)]) :: rest
    else (q, es) :: add_interaction_snap rest u v t e

/-- Processing of one snapshot record `(u, v, t, e?)` after tokenization:
conversions as in `parse_interactions` (including the same message slip on
timestamp failures), then registration — with an active key index the source
subscripts `keys[t]` and, for a present `e`, `keys[e]` with the raw string
token, which misses in the int-keyed dict. -/
def procSRec (nodeconv : Option NodeConv) (tsconv : Option Conv)
    (keys : Option (List (Int × Int))) (G : SnapGraph)
    (u v t : PyStr) (e : Option PyStr) : Except PyErr SnapGraph :=
  match convNodes nodeconv u v with
  | .error er => .error er
  | .ok (u2, v2) =>
    match convTs nodeconv tsconv t with
    | .error er => .error er
    | .ok tv =>
      match keys with
      | none => .ok (add_interaction_snap G u2 v2 tv (e.map .pstr))
      | some ks =>
        match kLookupVal ks tv with
        | none => .error (.keyErr tv)
        | some o =>
          match e with
          | none => .ok (add_interaction_snap G u2 v2 (.pint o) none)
          | some etok =>
            match kLookupVal ks (.pstr etok) with
            | none => .error (.keyErr (.pstr etok))
            | some o2 =>
              .ok (add_interaction_snap G u2 v2 (.pint o) (some (.pint o2)))

/-- Processing of one line of `parse_snapshots`: lines with fewer than three
fields are skipped; with three fields `e` is absent; with four or more the
first four fields are popped and any further fields are left unused. -/
def procSLine (cm : PyStr) (nodeconv : Option NodeConv) (tsconv : Option Conv)
    (keys : Option (List (Int × Int))) (G : SnapGraph) (line : PyStr) :
    Except PyErr SnapGraph :=
  match tokenizeLine cm line with
  | u :: v :: t :: rest =>
    match rest with
    | [] => procSRec nodeconv tsconv keys G u v t none
    | e :: _ => procSRec nodeconv tsconv keys G u v t (some e)
  | _ => .ok G

/-- The line loop of `parse_snapshots`. -/
def runSLines (cm : PyStr) (nodeconv : Option NodeConv) (tsconv : Option Conv)
    (keys : Option (List (Int × Int))) :
    SnapGraph → List PyStr → Except PyErr SnapGraph
  | G, [] => .ok G
  | G, l :: ls =>
    match procSLine cm nodeconv tsconv keys G l with
    | .error e => .error e
    | .ok G2 => runSLines cm nodeconv tsconv keys G2 ls

/-- `parse_snapshots(lines, comments, delimiter=None, create_using,
nodetype, timestamptype, keys)`. -/
def parse_snapshots (cm : PyStr) (nodeconv : Option NodeConv)
    (tsconv : Option Conv) (keys : Option (List (Int × Int)))
    (createUsing : Option (CreateUsing SnapGraph)) (lines : List PyStr) :
    Except PyErr SnapGraph :=
  match resolveCreate ([] : SnapGraph) createUsing with
  | .error e => .error e
  | .ok G0 => runSLines cm nodeconv tsconv keys G0 lines

/-- Decimal digit characters. -/
def digitChar : Nat → Char
  | 0 => '0'
  | 1 => '1'
  | 2 => '2'
  | 3 => '3'
  | 4 => '4'
  | 5 => '5'
  | 6 => '6'
  | 7 => '7'
  | 8 => '8'
  | _ => '9'

/-- Fuelled decimal digits of a natural number (fuel `n + 1` always
suffices, and keeps the definition structural so the kernel can reduce it). -/
def natCharsAux : Nat → Nat → List Char
  | 0, _ => []
  | fuel + 1, n =>
    if n < 10 then [digitChar n]
    else natCharsAux fuel (n / 10) ++ [digitChar (n % 10)]

/-- Decimal digits of a natural number. -/
def natChars (n : Nat) : List Char := natCharsAux (n + 1) n

/-- Modelled from the spec: the stringification helper (`make_str`) on an
integer is Python `str(i)`. -/
def pyStrInt : Int → PyStr
  | .ofNat n => natChars n
  | .negSucc n => '-' :: natChars (n + 1)

/-- Python 2 `str` of a pair of ints, e.g. `"(0, 3)"`. -/
def pyStrPair (ab : Int × Int) : PyStr :=
  '(' :: pyStrInt ab.1 ++ ", ".toList ++ pyStrInt ab.2 ++ ")".toList

/-- Separator-joined line, Python `delimiter.join(...)` with `' '`. -/
def joinSp : List PyStr → PyStr
  | [] => []
  | [t] => t
  | t :: ts => t ++ ' ' :: joinSp ts

/-- One stored interaction record of the graph as seen by
`generate_snapshots`: the node pair, the `'t'` attribute as a list of
timestamp-range pairs, and the remaining edge-attribute values. -/
structure SnapRec where
  u : PyStr
  v : PyStr
  ts : List (Int × Int)
  attrs : List PyStr

/-- `generate_snapshots(G)`: for each stored entry `t` the source builds
`e = [u, v, t[0]]`, then — the guard `t[1] is not None or t[0] != t[1]`
holds for every integer pair — runs `for s in xrange(t[0], t[1]): e = [u, v, t]`,
whose body only rebinds `e` (so a non-empty range leaves `e = [u, v, t]`
with the whole pair as third field), appends the non-`'t'` attribute
values, and yields the single joined line for the entry. -/
def generate_snapshots (G : List SnapRec) : List PyStr :=
  G.flatMap fun r =>
    r.ts.map fun ab =>
      let core := if ab.1 < ab.2 then [r.u, r.v, pyStrPair ab]
                  else [r.u, r.v, pyStrInt ab.1]
      joinSp (core ++ r.attrs)

/-- A graph's stored activity history as maximal half-open intervals
`[start, stop)` per node pair. -/
abbrev IntervalGraph := List ((PyStr × PyStr) × List (Int × Int))

/-- Modelled from the spec: `DynGraph.stream_interactions()` walks the
stored activity history and emits one `(u, v, op, t)` event per interval
endpoint — a `'+'` event at each interval start and a `'-'` event at each
interval stop. -/
def stream_interactions (G : IntervalGraph) :
    List (PyStr × PyStr × PyStr × Int) :=
  G.flatMap fun pr =>
    pr.2.flatMap fun ab =>
      [(pr.1.1, pr.1.2, plusTok, ab.1), (pr.1.1, pr.1.2, minusTok, ab.2)]

/-- `generate_interactions(G)`: one space-joined line per streamed event. -/
def generate_interactions (G : IntervalGraph) : List PyStr :=
  (stream_interactions G).map fun ev =>
    joinSp [ev.1, ev.2.1, ev.2.2.1, pyStrInt ev.2.2.2]

/-- Ordered insertion into a sorted list of ints. -/
def insSorted (x : Int) : List Int → List Int
  | [] => [x]
  | y :: ys => if x ≤ y then x :: y :: ys else y :: insSorted x ys

/-- Insertion sort over ints. -/
def sortInts (l : List Int) : List Int := l.foldr insSorted []

/-- Duplicate removal keeping first occurrences. -/
def dedupGo (seen : List Int) : List Int → List Int
  | [] => []
  | x :: xs => if x ∈ seen then dedupGo seen xs else x :: dedupGo (x :: seen) xs

/-- Duplicate removal keeping first occurrences. -/
def dedupInts (l : List Int) : List Int := dedupGo [] l

/-- Modelled from the spec: `dynetx.utils.clean_timeslot` deduplicates and
sorts the collected timestamp values ascending and assigns dense 0-based
ordinals, producing the value-to-ordinal mapping. -/
def clean_timeslot (vals : List Int) : List (Int × Int) :=
  (sortInts (dedupInts vals)).enum.map fun vi => (vi.2, (vi.1 : Int))

/-- Collection of `ids[k] = None` into an insertion-ordered key list. -/
def accInsert (acc : List Int) (v : Int) : List Int :=
  if v ∈ acc then acc else acc ++ [v]

/-- Application of the `timestamptype` argument inside `read_ids`, which
calls it unconditionally: `None` is applied as a callable (`TypeError`),
and a failing converter raises its own error (uncaught, e.g. `ValueError`
for `int`). -/
def applyTs (tsconv : Option Conv) (tok : PyStr) : Except PyErr Int :=
  match tsconv with
  | none => .error (.typeErr "\x27NoneType\x27 object is not callable".toList)
  | some tc =>
    match tc.run tok with
    | none => .error (.valueErr ("invalid literal: ".toList ++ tok))
    | some i => .ok i

/-- Line scan of `read_ids`: for each raw line, collect the converted last
token; then, when `len(line) == 4` — the character count of the raw line,
newline included, so `line.length + 1` here — and the second-to-last token
is not `'+'` or `'-'`, collect that token too (`s[-2]` on a single-token
line raises `IndexError`, as does `s[-1]` on a line with no tokens). -/
def readIdsGo (tsconv : Option Conv) :
    List Int → List PyStr → Except PyErr (List Int)
  | acc, [] => .ok acc
  | acc, line :: rest =>
    let toks := pySplitWS (dropEndWS line)
    match toks.getLast? with
    | none => .error .indexErr
    | some lastTok =>
      match applyTs tsconv lastTok with
      | .error e => .error e
      | .ok v =>
        let acc2 := accInsert acc v
        if line.length + 1 = 4 then
          match (toks.reverse.drop 1).head? with
          | none => .error .indexErr
          | some tok2 =>
            if tok2 = plusTok ∨ tok2 = minusTok then
              readIdsGo tsconv acc2 rest
            else
              match applyTs tsconv tok2 with
              | .error e => .error e
              | .ok v2 => readIdsGo tsconv (accInsert acc2 v2) rest
        else readIdsGo tsconv acc2 rest

/-- `read_ids(path, delimiter=None, timestamptype)`: pre-scan of the whole
file collecting timestamp candidates, then `clean_timeslot` over the
collected keys. -/
def read_ids (tsconv : Option Conv) (lines : List PyStr) :
    Except PyErr (List (Int × Int)) :=
  match readIdsGo tsconv [] lines with
  | .error e => .error e
  | .ok vals => .ok (clean_timeslot vals)

/-- `read_interactions(path, ..., keys=False)`: with `keys` set, `read_ids`
re-reads the same file first and its mapping is handed to
`parse_interactions`; with `keys` unset the mapping is `None`. -/
def read_interactions (cm : PyStr) (nodeconv : Option NodeConv)
    (tsconv : Option Conv) (createUsing : Option (CreateUsing DynGraph))
    (keysFlag : Bool) (lines : List PyStr) : Except PyErr DynGraph :=
  if keysFlag then
    match read_ids tsconv lines with
    | .error e => .error e
    | .ok ids => parse_interactions cm nodeconv tsconv (some ids) createUsing lines
  else parse_interactions cm nodeconv tsconv none createUsing lines

/-- `read_snapshots(path, ..., keys=False)`: same dispatch for snapshots. -/
def read_snapshots (cm : PyStr) (nodeconv : Option NodeConv)
    (tsconv : Option Conv) (createUsing : Option (CreateUsing SnapGraph))
    (keysFlag : Bool) (lines : List PyStr) : Except PyErr SnapGraph :=
  if keysFlag then
    match read_ids tsconv lines with
    | .error e => .error e
    | .ok ids => parse_snapshots cm nodeconv tsconv (some ids) createUsing lines
  else parse_snapshots cm nodeconv tsconv none createUsing lines

/-- Value of a decimal digit character. -/
def decDigit (c : Char) : Option Nat :=
  if '0' ≤ c ∧ c ≤ '9' then some (c.toNat - 48) else none

/-- Digits-to-number accumulation for `int(...)`. -/
def decParseNatGo : Nat → List Char → Option Nat
  | acc, [] => some acc
  | acc, c :: cs =>
    match decDigit c with
    | none => none
    | some d => decParseNatGo (10 * acc + d) cs

/-- Digit-string to natural number (`none` on empty input or a non-digit). -/
def decParseNat : List Char → Option Nat
  | [] => none
  | cs => decParseNatGo 0 cs

/-- Python `int(str)`: strip whitespace, optional sign, decimal digits. -/
def decParse (s : PyStr) : Option Int :=
  match pyStrip s with
  | '-' :: rest => (decParseNat rest).map (fun n => -(n : Int))
  | '+' :: rest => (decParseNat rest).map (fun n => (n : Int))
  | t => (decParseNat t).map (fun n => (n : Int))

/-- The `int` timestamp converter (Python 2 `repr` of the `int` type). -/
def pyIntConv : Conv := ⟨"<type \x27int\x27>".toList, decParse⟩

/-! Tokenization lemmas: splitting a space-joined line of clean tokens
recovers the tokens. -/

/-- A token that survives line processing intact: nonempty, without
whitespace and without the `'#'` comment marker. -/
def goodTok (t : PyStr) : Prop := t ≠ [] ∧ ∀ c ∈ t, isWS c = false ∧ c ≠ '#'

instance (t : PyStr) : Decidable (goodTok t) := by
  unfold goodTok; infer_instance

lemma splitWSGo_token (t : PyStr) (h : ∀ c ∈ t, isWS c = false) :
    ∀ rest acc : PyStr, splitWSGo (t ++ rest) acc = splitWSGo rest (t.reverse ++ acc) := by
  induction t with
  | nil => intro rest acc; simp
  | cons c cs ih =>
    intro rest acc
    have hc : isWS c = false := h c (by simp)
    have hcs : ∀ x ∈ cs, isWS x = false := fun x hx => h x (by simp [hx])
    simp [splitWSGo, hc, ih hcs]

lemma splitWSGo_allWS (w : PyStr) (h : ∀ c ∈ w, isWS c = true) :
    ∀ acc, splitWSGo w acc = if acc = [] then [] else [acc.reverse] := by
  induction w with
  | nil => intro acc; rfl
  | cons c cs ih =>
    intro acc
    have hc : isWS c = true := h c (by simp)
    have hcs : ∀ x ∈ cs, isWS x = true := fun x hx => h x (by simp [hx])
    by_cases hacc : acc = [] <;> simp [splitWSGo, hc, hacc, ih hcs]

lemma pySplitWS_join (toks : List PyStr) (hne : toks ≠ [])
    (h1 : ∀ t ∈ toks, t ≠ []) (h2 : ∀ t ∈ toks, ∀ c ∈ t, isWS c = false) :
    pySplitWS (joinSp toks) = toks := by
  induction toks with
  | nil => exact absurd rfl hne
  | cons t ts ih =>
    have ht1 : t ≠ [] := h1 t (by simp)
    have ht2 : ∀ c ∈ t, isWS c = false := h2 t (by simp)
    cases ts with
    | nil =>
      show splitWSGo (joinSp [t]) [] = [t]
      have : joinSp [t] = t ++ [] := by simp [joinSp]
      rw [this, splitWSGo_token t ht2]
      simp [splitWSGo, ht1]
    | cons t2 ts2 =>
      show splitWSGo (joinSp (t :: t2 :: ts2)) [] = t :: t2 :: ts2
      have hj : joinSp (t :: t2 :: ts2) = t ++ ' ' :: joinSp (t2 :: ts2) := rfl
      rw [hj, splitWSGo_token t ht2]
      have hrev : t.reverse ++ ([] : PyStr) ≠ [] := by simp [ht1]
      have : splitWSGo (' ' :: joinSp (t2 :: ts2)) (t.reverse ++ []) =
          (t.reverse ++ []).reverse :: splitWSGo (joinSp (t2 :: ts2)) [] := by
        simp only [splitWSGo, isWS]
        simp [hrev, ht1]
      rw [this]
      have ihe := ih (by simp) (fun x hx => h1 x (by simp [hx]))
        (fun x hx => h2 x (by simp [hx]))
      simp only [pySplitWS] at ihe
      simp [ihe]

lemma pySplitWS_dropWhile (s : PyStr) :
    pySplitWS (s.dropWhile isWS) = pySplitWS s := by
  induction s with
  | nil => rfl
  | cons c cs ih =>
    by_cases hc : isWS c = true
    · have hd : (c :: cs).dropWhile isWS = cs.dropWhile isWS := by
        simp [List.dropWhile_cons, hc]
      rw [hd, ih]
      show pySplitWS cs = splitWSGo (c :: cs) []
      simp [pySplitWS, splitWSGo, hc]
    · have hd : (c :: cs).dropWhile isWS = c :: cs := by
        simp [List.dropWhile_cons, hc]
      rw [hd]

lemma splitWSGo_append_allWS (u w : PyStr) (h : ∀ c ∈ w, isWS c = true) :
    ∀ acc, splitWSGo (u ++ w) acc = splitWSGo u acc := by
  induction u with
  | nil =>
    intro acc
    simp only [List.nil_append]
    rw [splitWSGo_allWS w h acc]
    rfl
  | cons c cs ih =>
    intro acc
    by_cases hc : isWS c = true <;>
      by_cases hacc : acc = [] <;>
        simp [splitWSGo, hc, hacc, ih]

lemma pySplitWS_dropEndWS (s : PyStr) :
    pySplitWS (dropEndWS s) = pySplitWS s := by
  have hsplit : s.reverse.takeWhile isWS ++ s.reverse.dropWhile isWS = s.reverse :=
    List.takeWhile_append_dropWhile isWS s.reverse
  have hs : s = dropEndWS s ++ (s.reverse.takeWhile isWS).reverse := by
    conv_lhs => rw [← List.reverse_reverse s, ← hsplit]
    rw [List.reverse_append]
    rfl
  have hw : ∀ c ∈ (s.reverse.takeWhile isWS).reverse, isWS c = true := by
    intro c hc
    rw [List.mem_reverse] at hc
    exact List.mem_takeWhile_imp hc
  conv_rhs => rw [hs]
  exact (splitWSGo_append_allWS _ _ hw []).symm

lemma pySplitWS_pyStrip (s : PyStr) : pySplitWS (pyStrip s) = pySplitWS s := by
  rw [pyStrip, pySplitWS_dropEndWS, pySplitWS_dropWhile]

lemma findSub_single_none (c : Char) (l : PyStr) (h : c ∉ l) :
    findSub [c] l = none := by
  induction l with
  | nil => rfl
  | cons x xs ih =>
    have hx : c ≠ x := fun he => h (he ▸ List.mem_cons_self x xs)
    have hpre : isPre [c] (x :: xs) = false := by
      simp [isPre, hx]
    simp [findSub, hpre, ih (fun hm => h (List.mem_cons_of_mem x hm))]

lemma stripComment_noop (c : Char) (line : PyStr) (h : c ∉ line) :
    stripComment [c] line = line := by
  rw [stripComment, findSub_single_none c line h]

lemma mem_joinSp (toks : List PyStr) (c : Char) (h : c ∈ joinSp toks) :
    c = ' ' ∨ ∃ t ∈ toks, c ∈ t := by
  induction toks with
  | nil => simp [joinSp] at h
  | cons t ts ih =>
    cases ts with
    | nil =>
      simp only [joinSp] at h
      exact Or.inr ⟨t, by simp, h⟩
    | cons t2 ts2 =>
      have hj : joinSp (t :: t2 :: ts2) = t ++ ' ' :: joinSp (t2 :: ts2) := rfl
      rw [hj, List.mem_append] at h
      rcases h with h | h
      · exact Or.inr ⟨t, by simp, h⟩
      · rcases List.mem_cons.mp h with h | h
        · exact Or.inl h
        · rcases ih h with h | ⟨t3, ht3, hc3⟩
          · exact Or.inl h
          · exact Or.inr ⟨t3, by simp [ht3], hc3⟩

lemma tokenizeLine_join (toks : List PyStr) (hne : toks ≠ [])
    (hg : ∀ t ∈ toks, goodTok t) :
    tokenizeLine ['#'] (joinSp toks) = toks := by
  have hns : '#' ∉ joinSp toks := by
    intro hmem
    rcases mem_joinSp toks '#' hmem with h | ⟨t, ht, hc⟩
    · exact absurd h (by decide)
    · exact ((hg t ht).2 '#' hc).2 rfl
  rw [tokenizeLine, stripComment_noop '#' _ hns, pySplitWS_pyStrip]
  exact pySplitWS_join toks hne (fun t ht => (hg t ht).1)
    (fun t ht c hc => ((hg t ht).2 c hc).1)

/-! Association-list and timeline-insertion lemmas. -/

lemma tLookup_updG_self (G : DynGraph) (p : PyStr × PyStr) (t : PyVal) :
    tLookup (updG G p t) p = insertVal t (tLookup G p) := by
  induction G with
  | nil => simp [updG, tLookup, insertVal]
  | cons pr rest ih =>
    obtain ⟨q, ts⟩ := pr
    by_cases hq : q = p
    · simp [updG, tLookup, hq]
    · simp [updG, tLookup, hq, ih]

lemma tLookup_updG_other (G : DynGraph) (q p : PyStr × PyStr) (t : PyVal)
    (h : q ≠ p) : tLookup (updG G q t) p = tLookup G p := by
  induction G with
  | nil => simp [updG, tLookup, h]
  | cons pr rest ih =>
    obtain ⟨r, ts⟩ := pr
    by_cases hr : r = q
    · subst hr
      simp [updG, tLookup, h]
    · by_cases hp : r = p
      · subst hp
        simp [updG, tLookup, hr]
      · simp [updG, tLookup, hr, hp, ih]

lemma expandClose_none (u v : PyStr) (ts : List Int) : ∀ G : DynGraph,
    expandClose none u v G ts =
      .ok (ts.foldl (fun g t => add_interaction g u v (.pint t)) G) := by
  induction ts with
  | nil => intro G; rfl
  | cons t ts ih => intro G; simp [expandClose, ih, List.foldl_cons]

lemma foldAdd_tLookup_self (u v : PyStr) (ts : List Int) : ∀ G : DynGraph,
    tLookup (ts.foldl (fun g t => add_interaction g u v (.pint t)) G) (u, v) =
      ts.foldl (fun l t => insertVal (.pint t) l) (tLookup G (u, v)) := by
  induction ts with
  | nil => intro G; rfl
  | cons t ts ih =>
    intro G
    rw [List.foldl_cons, List.foldl_cons, ih]
    rw [show add_interaction G u v (.pint t) = updG G (u, v) (.pint t) from rfl,
      tLookup_updG_self]

lemma foldAdd_tLookup_other (u v : PyStr) (p : PyStr × PyStr)
    (h : (u, v) ≠ p) (ts : List Int) : ∀ G : DynGraph,
    tLookup (ts.foldl (fun g t => add_interaction g u v (.pint t)) G) p =
      tLookup G p := by
  induction ts with
  | nil => intro G; rfl
  | cons t ts ih =>
    intro G
    rw [List.foldl_cons, ih]
    rw [show add_interaction G u v (.pint t) = updG G (u, v) (.pint t) from rfl,
      tLookup_updG_other _ _ _ _ h]

lemma expandClose_frame (keys : Option (List (Int × Int))) (u v : PyStr)
    (p : PyStr × PyStr) (h : (u, v) ≠ p) (ts : List Int) :
    ∀ G G' : DynGraph, expandClose keys u v G ts = .ok G' →
      tLookup G' p = tLookup G p := by
  induction ts with
  | nil =>
    intro G G' he
    cases he
    rfl
  | cons t ts ih =>
    intro G G' he
    cases keys with
    | none =>
      have := ih _ _ he
      rw [this, show add_interaction G u v (.pint t) = updG G (u, v) (.pint t) from rfl,
        tLookup_updG_other _ _ _ _ h]
    | some ks =>
      simp only [expandClose] at he
      cases hk : kLookup ks t with
      | none => rw [hk] at he; cases he
      | some o =>
        rw [hk] at he
        have := ih _ _ he
        rw [this, show add_interaction G u v (.pint o) = updG G (u, v) (.pint o) from rfl,
          tLookup_updG_other _ _ _ _ h]

lemma pyLt_pint_false (a y : Int) (h : y < a) :
    pyLtB (.pint a) (.pint y) = false := by
  simp only [pyLtB, decide_eq_false_iff_not]
  omega

lemma insertVal_top (a : Int) (l : List Int) (h : ∀ x ∈ l, x < a) :
    insertVal (.pint a) (l.map .pint) = ((l ++ [a]).map .pint) := by
  induction l with
  | nil => rfl
  | cons y ys ih =>
    have hy : y < a := h y (by simp)
    have h2 : (PyVal.pint a) ≠ (.pint y) := by simp; omega
    simp only [List.map_cons, insertVal, pyLt_pint_false a y hy, h2,
      ih (fun x hx => h x (by simp [hx]))]
    simp

lemma insertVal_dupTop (a : Int) (l : List Int) (h : ∀ x ∈ l, x < a) :
    insertVal (.pint a) ((l ++ [a]).map .pint) = (l ++ [a]).map .pint := by
  induction l with
  | nil =>
    show insertVal (.pint a) [.pint a] = [.pint a]
    simp [insertVal, pyLtB]
  | cons y ys ih =>
    have hy : y < a := h y (by simp)
    have h2 : (PyVal.pint a) ≠ (.pint y) := by simp; omega
    have ih2 := ih (fun x hx => h x (by simp [hx]))
    rw [List.cons_append, List.map_cons]
    have hstep : insertVal (.pint a) (.pint y :: (ys ++ [a]).map .pint) =
        .pint y :: insertVal (.pint a) ((ys ++ [a]).map .pint) := by
      simp [insertVal, pyLt_pint_false a y hy, h2]
    rw [hstep, ih2]

lemma intRange_nil (a b : Int) (h : ¬a < b) : intRange a b = [] := by
  simp [intRange, h]

lemma intRange_cons (a b : Int) (h : a < b) :
    intRange a b = a :: intRange (a + 1) b := by
  have hn : (b - a).toNat = (b - (a + 1)).toNat + 1 := by omega
  unfold intRange
  rw [if_pos h, hn, List.range_succ_eq_map, List.map_cons]
  congr 1
  · simp
  · rw [List.map_map]
    by_cases h2 : a + 1 < b
    · rw [if_pos h2]
      apply List.map_congr_left
      intro k _
      simp only [Function.comp_apply]
      push_cast
      ring
    · have h3 : (b - (a + 1)).toNat = 0 := by omega
      rw [if_neg h2, h3]
      rfl

lemma mem_intRange (t a b : Int) : t ∈ intRange a b ↔ a ≤ t ∧ t < b := by
  unfold intRange
  by_cases h : a < b
  · simp only [if_pos h, List.mem_map, List.mem_range]
    constructor
    · rintro ⟨k, hk, rfl⟩
      omega
    · rintro ⟨h1, h2⟩
      exact ⟨(t - a).toNat, by omega, by omega⟩
  · simp only [if_neg h, List.not_mem_nil, false_iff]
    omega

lemma foldl_insert_intRange (k : Nat) : ∀ a b : Int, (b - a).toNat = k →
    ∀ l : List Int, (∀ x ∈ l, x < a) →
    (intRange a b).foldl (fun L t => insertVal (.pint t) L) (l.map .pint) =
      ((l ++ intRange a b).map .pint) := by
  induction k with
  | zero =>
    intro a b hk l _
    have hnab : ¬a < b := by omega
    simp [intRange_nil a b hnab]
  | succ k ih =>
    intro a b hk l hl
    have hab : a < b := by omega
    rw [intRange_cons a b hab, List.foldl_cons, insertVal_top a l hl]
    have hk2 : (b - (a + 1)).toNat = k := by omega
    have hl2 : ∀ x ∈ l ++ [a], x < a + 1 := by
      intro x hx
      rcases List.mem_append.mp hx with hx | hx
      · have := hl x hx; omega
      · simp at hx; omega
    rw [ih (a + 1) b hk2 (l ++ [a]) hl2]
    simp

lemma foldl_insert_range_dup (a b : Int) (l : List Int)
    (hl : ∀ x ∈ l, x < a) (hab : a < b) :
    (intRange a b).foldl (fun L t => insertVal (.pint t) L) ((l ++ [a]).map .pint) =
      ((l ++ intRange a b).map .pint) := by
  rw [intRange_cons a b hab, List.foldl_cons, insertVal_dupTop a l hl]
  have hl2 : ∀ x ∈ l ++ [a], x < a + 1 := by
    intro x hx
    rcases List.mem_append.mp hx with hx | hx
    · have := hl x hx; omega
    · simp at hx; omega
  rw [foldl_insert_intRange (b - (a + 1)).toNat (a + 1) b rfl (l ++ [a]) hl2]
  simp

/-! Per-line processing lemmas for `parse_interactions`. -/

lemma pyLt_pint_true (a b : Int) (h : a < b) :
    pyLtB (.pint a) (.pint b) = true := by
  simp only [pyLtB]
  exact decide_eq_true h

lemma procIRec_plus (tc : Conv) (G : DynGraph) (u v ts : PyStr) (t : Int)
    (h : tc.run ts = some t) :
    procIRec none (some tc) none G u v plusTok ts =
      .ok (add_interaction G u v (.pint t)) := by
  simp [procIRec, convNodes, convTs, h]

lemma procIRec_minus_expand (tc : Conv) (G : DynGraph) (u v op ts : PyStr)
    (t a : Int) (hop : op ≠ plusTok) (h : tc.run ts = some t)
    (hlast : (tLookup G (u, v)).getLast? = some (.pint a)) (hlt : a < t) :
    procIRec none (some tc) none G u v op ts =
      expandClose none u v G (intRange a t) := by
  simp [procIRec, convNodes, convTs, h, hop, hlast, pyLt_pint_true a t hlt]

lemma procIRec_minus_noop (nodeconv : Option NodeConv) (tsconv : Option Conv)
    (keys : Option (List (Int × Int))) (G : DynGraph) (u v op ts : PyStr)
    (sv : PyVal) (hop : op ≠ plusTok) (hsv : convTs nodeconv tsconv ts = .ok sv)
    (hcn : convNodes nodeconv u v = .ok (u, v))
    (hT : tLookup G (u, v) = [] ∨
      ∃ last, (tLookup G (u, v)).getLast? = some last ∧ pyLtB last sv = false) :
    procIRec nodeconv tsconv keys G u v op ts = .ok G := by
  simp only [procIRec, hcn, hsv, hop, if_neg hop]
  rcases hT with hT | ⟨last, hlast, hfalse⟩
  · simp [hT]
  · simp [hlast, hfalse]

/-- Whether a line tokenizes to a four-field record whose node-token pair is
`p` (only such lines can mutate the timeline keyed at `p` when no node
conversion is active). -/
def lineTouches (cm : PyStr) (p : PyStr × PyStr) (line : PyStr) : Bool :=
  match tokenizeLine cm line with
  | [u, v, _, _] => decide ((u, v) = p)
  | _ => false

lemma procILine_frame (cm : PyStr) (tsconv : Option Conv)
    (keys : Option (List (Int × Int))) (p : PyStr × PyStr)
    (G G' : DynGraph) (line : PyStr)
    (ht : lineTouches cm p line = false)
    (h : procILine cm none tsconv keys G line = .ok G') :
    tLookup G' p = tLookup G p := by
  unfold procILine at h
  unfold lineTouches at ht
  cases htok : tokenizeLine cm line with
  | nil => rw [htok] at h; cases h; rfl
  | cons u l1 =>
    cases l1 with
    | nil => rw [htok] at h; cases h; rfl
    | cons v l2 =>
      cases l2 with
      | nil => rw [htok] at h; cases h; rfl
      | cons op l3 =>
        cases l3 with
        | nil => rw [htok] at h; cases h; rfl
        | cons ts l4 =>
          cases l4 with
          | cons x l5 => rw [htok] at h; cases h; rfl
          | nil =>
            rw [htok] at h ht
            have hne : (u, v) ≠ p := by
              simpa using ht
            simp only [procIRec, convNodes] at h
            cases hcv : convTs none tsconv ts with
            | error e => rw [hcv] at h; cases h
            | ok sv =>
              rw [hcv] at h
              dsimp only at h
              by_cases hop : op = plusTok
              · rw [if_pos hop] at h
                cases keys with
                | none =>
                  cases h
                  exact tLookup_updG_other _ _ _ _ hne
                | some ks =>
                  dsimp only at h
                  cases hkl : kLookupVal ks sv with
                  | none => rw [hkl] at h; cases h
                  | some o =>
                    rw [hkl] at h
                    cases h
                    exact tLookup_updG_other _ _ _ _ hne
              · rw [if_neg hop] at h
                cases hlast : (tLookup G (u, v)).getLast? with
                | none => rw [hlast] at h; cases h; rfl
                | some last =>
                  rw [hlast] at h
                  dsimp only at h
                  by_cases hlt : pyLtB last sv = true
                  · rw [if_pos hlt] at h
                    cases last with
                    | pstr s => cases sv <;> cases h
                    | pint a =>
                      cases sv with
                      | pstr s2 => cases h
                      | pint b => exact expandClose_frame keys u v p hne _ _ _ h
                  · rw [if_neg hlt] at h
                    cases h
                    rfl

lemma runILines_append (cm : PyStr) (nodeconv : Option NodeConv)
    (tsconv : Option Conv) (keys : Option (List (Int × Int)))
    (xs ys : List PyStr) : ∀ G,
    runILines cm nodeconv tsconv keys G (xs ++ ys) =
      match runILines cm nodeconv tsconv keys G xs with
      | .ok G2 => runILines cm nodeconv tsconv keys G2 ys
      | .error e => .error e := by
  induction xs with
  | nil => intro G; rfl
  | cons x xs ih =>
    intro G
    simp only [List.cons_append, runILines]
    cases procILine cm nodeconv tsconv keys G x with
    | error e => rfl
    | ok G2 => exact ih G2

lemma runILines_frame (cm : PyStr) (tsconv : Option Conv)
    (keys : Option (List (Int × Int))) (p : PyStr × PyStr) (ls : List PyStr)
    (hl : ∀ l ∈ ls, lineTouches cm p l = false) : ∀ G G',
    runILines cm none tsconv keys G ls = .ok G' →
      tLookup G' p = tLookup G p := by
  induction ls with
  | nil =>
    intro G G' h
    cases h
    rfl
  | cons l ls ih =>
    intro G G' h
    simp only [runILines] at h
    cases hp : procILine cm none tsconv keys G l with
    | error e => rw [hp] at h; cases h
    | ok G2 =>
      rw [hp] at h
      rw [ih (fun x hx => hl x (by simp [hx])) G2 G' h,
        procILine_frame cm tsconv keys p G G2 l (hl l (by simp)) hp]

/-! Rendered decimal tokens are clean, and serialization lines retokenize. -/

lemma digitChar_not_ws (d : Nat) : isWS (digitChar d) = false := by
  rcases d with _|_|_|_|_|_|_|_|_|d <;>
    first
    | decide
    | exact (by decide : isWS '9' = false)

lemma digitChar_ne_hash (d : Nat) : digitChar d ≠ '#' := by
  rcases d with _|_|_|_|_|_|_|_|_|d <;>
    first
    | decide
    | exact (by decide : '9' ≠ '#')

lemma natCharsAux_chars (fuel : Nat) : ∀ n c, c ∈ natCharsAux fuel n →
    ∃ d, c = digitChar d := by
  induction fuel with
  | zero => intro n c hc; simp [natCharsAux] at hc
  | succ fuel ih =>
    intro n c hc
    unfold natCharsAux at hc
    by_cases h : n < 10
    · rw [if_pos h] at hc
      simp at hc
      exact ⟨n, hc⟩
    · rw [if_neg h] at hc
      rcases List.mem_append.mp hc with hc | hc
      · exact ih _ _ hc
      · simp at hc
        exact ⟨n % 10, hc⟩

lemma natCharsAux_ne_nil (fuel n : Nat) : natCharsAux (fuel + 1) n ≠ [] := by
  unfold natCharsAux
  by_cases h : n < 10 <;> simp [h]

lemma goodTok_pyStrInt (t : Int) : goodTok (pyStrInt t) := by
  cases t with
  | ofNat n =>
    refine ⟨natCharsAux_ne_nil n n, ?_⟩
    intro c hc
    obtain ⟨d, rfl⟩ := natCharsAux_chars (n + 1) n c hc
    exact ⟨digitChar_not_ws d, digitChar_ne_hash d⟩
  | negSucc n =>
    refine ⟨by simp [pyStrInt], ?_⟩
    intro c hc
    rcases List.mem_cons.mp hc with rfl | hc
    · exact ⟨by decide, by decide⟩
    · obtain ⟨d, rfl⟩ := natCharsAux_chars (n + 1 + 1) (n + 1) c hc
      exact ⟨digitChar_not_ws d, digitChar_ne_hash d⟩

lemma goodTok_plusTok : goodTok plusTok := by
  refine ⟨by decide, ?_⟩
  intro c hc
  simp [plusTok] at hc
  subst hc
  exact ⟨by decide, by decide⟩

lemma goodTok_minusTok : goodTok minusTok := by
  refine ⟨by decide, ?_⟩
  intro c hc
  simp [minusTok] at hc
  subst hc
  exact ⟨by decide, by decide⟩

/-- The default comment marker `'#'`. -/
def hashS : PyStr := ['#']

/-- The pair of serialized event lines of one pair's stored intervals, as
emitted by `generate_interactions`. -/
def pairLines (u v : PyStr) (ivs : List (Int × Int)) : List PyStr :=
  ivs.flatMap fun ab =>
    [joinSp [u, v, plusTok, pyStrInt ab.1], joinSp [u, v, minusTok, pyStrInt ab.2]]

lemma generate_interactions_eq (G : IntervalGraph) :
    generate_interactions G = G.flatMap fun pr => pairLines pr.1.1 pr.1.2 pr.2 := by
  unfold generate_interactions stream_interactions pairLines
  simp [List.map_flatMap]

/-- Well-formed interval list with lower bound: starts are at or after the
bound, every interval is nonempty, and intervals are ordered with each start
at or after the previous stop. -/
def wfIvsB : Int → List (Int × Int) → Bool
  | _, [] => true
  | lb, ab :: rest => decide (lb ≤ ab.1) && decide (ab.1 < ab.2) && wfIvsB ab.2 rest

/-- Well-formed stored interval list (bound anchored at the first start). -/
def ivsWFB : List (Int × Int) → Bool
  | [] => true
  | ab :: rest => wfIvsB ab.1 (ab :: rest)

/-- Expansion of stored intervals to their integer timesteps. -/
def expandIvs (ivs : List (Int × Int)) : List Int :=
  ivs.flatMap fun ab => intRange ab.1 ab.2

/-- Stored intervals of a pair in an interval graph (`[]` when absent). -/
def ivLookup : IntervalGraph → (PyStr × PyStr) → List (Int × Int)
  | [], _ => []
  | (q, ivs) :: rest, p => if q = p then ivs else ivLookup rest p

lemma tokenize_evLine (u v op : PyStr) (t : Int) (hu : goodTok u)
    (hv : goodTok v) (hop : goodTok op) :
    tokenizeLine hashS (joinSp [u, v, op, pyStrInt t]) = [u, v, op, pyStrInt t] := by
  show tokenizeLine ['#'] (joinSp [u, v, op, pyStrInt t]) = [u, v, op, pyStrInt t]
  apply tokenizeLine_join _ (by simp)
  intro x hx
  simp only [List.mem_cons, List.not_mem_nil, or_false] at hx
  rcases hx with rfl | rfl | rfl | rfl
  · exact hu
  · exact hv
  · exact hop
  · exact goodTok_pyStrInt t

lemma procILine_evLine (cm : PyStr) (nodeconv : Option NodeConv)
    (tsconv : Option Conv) (keys : Option (List (Int × Int))) (G : DynGraph)
    (line u v op ts : PyStr) (h : tokenizeLine cm line = [u, v, op, ts]) :
    procILine cm nodeconv tsconv keys G line =
      procIRec nodeconv tsconv keys G u v op ts := by
  unfold procILine
  rw [h]

lemma pairBlock_run (tc : Conv) (u v : PyStr) (hu : goodTok u) (hv : goodTok v) :
    ∀ (ivs : List (Int × Int)) (lb : Int) (l : List Int) (G : DynGraph),
    wfIvsB lb ivs = true →
    (∀ x ∈ l, x < lb) →
    (∀ ab ∈ ivs, tc.run (pyStrInt ab.1) = some ab.1 ∧
      tc.run (pyStrInt ab.2) = some ab.2) →
    tLookup G (u, v) = l.map .pint →
    ∃ G', runILines hashS none (some tc) none G (pairLines u v ivs) = .ok G' ∧
      tLookup G' (u, v) = ((l ++ expandIvs ivs).map .pint) ∧
      ∀ q, q ≠ (u, v) → tLookup G' q = tLookup G q := by
  intro ivs
  induction ivs with
  | nil =>
    intro lb l G _ _ _ hT
    refine ⟨G, rfl, ?_, fun q _ => rfl⟩
    simp [expandIvs, hT]
  | cons ab rest ih =>
    intro lb l G hwf hl htc hT
    obtain ⟨a, b⟩ := ab
    have hwf2 := hwf
    simp only [wfIvsB, Bool.and_eq_true, decide_eq_true_eq] at hwf2
    obtain ⟨⟨hlba, hab⟩, hwfr⟩ := hwf2
    have hmemh : (a, b) ∈ (a, b) :: rest := by simp
    have hla : ∀ x ∈ l, x < a := fun x hx => lt_of_lt_of_le (hl x hx) hlba
    have hstep1 : procILine hashS none (some tc) none G
        (joinSp [u, v, plusTok, pyStrInt a]) =
          .ok (add_interaction G u v (.pint a)) := by
      rw [procILine_evLine hashS none (some tc) none G _ u v plusTok (pyStrInt a)
        (tokenize_evLine u v plusTok a hu hv goodTok_plusTok)]
      exact procIRec_plus tc G u v (pyStrInt a) a (htc (a, b) hmemh).1
    have hT1 : tLookup (add_interaction G u v (.pint a)) (u, v) =
        ((l ++ [a]).map .pint) := by
      rw [show add_interaction G u v (.pint a) = updG G (u, v) (.pint a) from rfl,
        tLookup_updG_self, hT, insertVal_top a l hla]
    have hlast : (tLookup (add_interaction G u v (.pint a)) (u, v)).getLast? =
        some (.pint a) := by
      rw [hT1, List.map_append]
      exact List.getLast?_concat _
    have hstep2 : procILine hashS none (some tc) none
        (add_interaction G u v (.pint a)) (joinSp [u, v, minusTok, pyStrInt b]) =
          .ok ((intRange a b).foldl
            (fun g t => add_interaction g u v (.pint t))
            (add_interaction G u v (.pint a))) := by
      rw [procILine_evLine hashS none (some tc) none _ _ u v minusTok (pyStrInt b)
        (tokenize_evLine u v minusTok b hu hv goodTok_minusTok)]
      rw [procIRec_minus_expand tc _ u v minusTok (pyStrInt b) b a (by decide)
        (htc (a, b) hmemh).2 hlast hab]
      exact expandClose_none u v (intRange a b) _
    have hT2 : tLookup ((intRange a b).foldl
        (fun g t => add_interaction g u v (.pint t))
        (add_interaction G u v (.pint a))) (u, v) =
          ((l ++ intRange a b).map .pint) := by
      rw [foldAdd_tLookup_self, hT1]
      exact foldl_insert_range_dup a b l hla hab
    have hbound2 : ∀ x ∈ l ++ intRange a b, x < b := by
      intro x hx
      rcases List.mem_append.mp hx with hx | hx
      · exact lt_trans (hla x hx) hab
      · exact ((mem_intRange x a b).mp hx).2
    obtain ⟨G3, hrun3, hT3, hframe3⟩ := ih b (l ++ intRange a b) _ hwfr hbound2
      (fun ab2 hab2 => htc ab2 (List.mem_cons_of_mem _ hab2)) hT2
    refine ⟨G3, ?_, ?_, ?_⟩
    · have hpl : pairLines u v ((a, b) :: rest) =
          joinSp [u, v, plusTok, pyStrInt a] ::
            joinSp [u, v, minusTok, pyStrInt b] :: pairLines u v rest := by
        simp [pairLines]
      rw [hpl]
      simp only [runILines]
      rw [hstep1]
      dsimp only
      rw [hstep2]
      dsimp only
      exact hrun3
    · rw [hT3]
      have : (l ++ intRange a b) ++ expandIvs rest =
          l ++ expandIvs ((a, b) :: rest) := by
        simp [expandIvs]
      rw [this]
    · intro q hq
      rw [hframe3 q hq,
        foldAdd_tLookup_other u v q (fun he => hq he.symm) _ _,
        show add_interaction G u v (.pint a) = updG G (u, v) (.pint a) from rfl,
        tLookup_updG_other _ _ _ _ (fun he => hq he.symm)]

lemma mem_expandIvs (t : Int) (ivs : List (Int × Int)) :
    t ∈ expandIvs ivs ↔ ∃ ab ∈ ivs, ab.1 ≤ t ∧ t < ab.2 := by
  simp [expandIvs, List.mem_flatMap, mem_intRange]

lemma ivLookup_eq_of_mem (Gs : IntervalGraph)
    (hnd : (Gs.map Prod.fst).Nodup) (pr : (PyStr × PyStr) × List (Int × Int))
    (h : pr ∈ Gs) : ivLookup Gs pr.1 = pr.2 := by
  induction Gs with
  | nil => simp at h
  | cons hd rest ih =>
    obtain ⟨q, ivs⟩ := hd
    rw [List.map_cons, List.nodup_cons] at hnd
    rcases List.mem_cons.mp h with rfl | h
    · simp [ivLookup]
    · have hq : q ≠ pr.1 := by
        intro he
        apply hnd.1
        rw [he]
        exact List.mem_map.mpr ⟨pr, h, rfl⟩
      simp only [ivLookup, if_neg hq]
      exact ih hnd.2 h

lemma ivLookup_eq_nil_of_not_mem (Gs : IntervalGraph) (p : PyStr × PyStr)
    (h : p ∉ Gs.map Prod.fst) : ivLookup Gs p = [] := by
  induction Gs with
  | nil => rfl
  | cons hd rest ih =>
    obtain ⟨q, ivs⟩ := hd
    rw [List.map_cons] at h
    have hq : q ≠ p := fun he => h (he ▸ List.mem_cons_self _ _)
    simp only [ivLookup, if_neg hq]
    exact ih (fun hm => h (List.mem_cons_of_mem _ hm))

lemma blocks_run (tc : Conv) :
    ∀ (Gs : IntervalGraph) (G0 : DynGraph),
    (Gs.map Prod.fst).Nodup →
    (∀ pr ∈ Gs, goodTok pr.1.1 ∧ goodTok pr.1.2) →
    (∀ pr ∈ Gs, ivsWFB pr.2 = true) →
    (∀ pr ∈ Gs, ∀ ab ∈ pr.2, tc.run (pyStrInt ab.1) = some ab.1 ∧
      tc.run (pyStrInt ab.2) = some ab.2) →
    (∀ pr ∈ Gs, tLookup G0 pr.1 = []) →
    ∃ H, runILines hashS none (some tc) none G0
        (Gs.flatMap fun pr => pairLines pr.1.1 pr.1.2 pr.2) = .ok H ∧
      (∀ pr ∈ Gs, tLookup H pr.1 = ((expandIvs pr.2).map .pint)) ∧
      (∀ p, p ∉ Gs.map Prod.fst → tLookup H p = tLookup G0 p) := by
  intro Gs
  induction Gs with
  | nil =>
    intro G0 _ _ _ _ _
    exact ⟨G0, rfl, by simp, fun p _ => rfl⟩
  | cons pr rest ih =>
    intro G0 hnd hg hwf htc h0
    obtain ⟨⟨u, v⟩, ivs⟩ := pr
    have hmemh : ((u, v), ivs) ∈ ((u, v), ivs) :: rest := by simp
    have hlb : ∃ lb, wfIvsB lb ivs = true := by
      cases ivs with
      | nil => exact ⟨0, rfl⟩
      | cons ab r =>
        refine ⟨ab.1, ?_⟩
        have := hwf _ hmemh
        simpa [ivsWFB] using this
    obtain ⟨lb, hwfh⟩ := hlb
    obtain ⟨G1, hrun1, hT1, hframe1⟩ := pairBlock_run tc u v
      (hg _ hmemh).1 (hg _ hmemh).2 ivs lb [] G0 hwfh (by simp)
      (fun ab hab => htc _ hmemh ab hab) (by simpa using h0 _ hmemh)
    rw [List.map_cons, List.nodup_cons] at hnd
    have hrest0 : ∀ pr2 ∈ rest, tLookup G1 pr2.1 = [] := by
      intro pr2 hpr2
      have hne : pr2.1 ≠ (u, v) := by
        intro he
        apply hnd.1
        rw [← he]
        exact List.mem_map.mpr ⟨pr2, hpr2, rfl⟩
      rw [hframe1 pr2.1 hne]
      exact h0 pr2 (List.mem_cons_of_mem _ hpr2)
    obtain ⟨H, hrunH, hTH, hframeH⟩ := ih G1 hnd.2
      (fun pr2 h2 => hg pr2 (List.mem_cons_of_mem _ h2))
      (fun pr2 h2 => hwf pr2 (List.mem_cons_of_mem _ h2))
      (fun pr2 h2 => htc pr2 (List.mem_cons_of_mem _ h2)) hrest0
    refine ⟨H, ?_, ?_, ?_⟩
    · rw [List.flatMap_cons, runILines_append, hrun1]
      exact hrunH
    · intro pr2 hpr2
      rcases List.mem_cons.mp hpr2 with rfl | hpr2
      · have hnm : ((u, v) : PyStr × PyStr) ∉ rest.map Prod.fst := hnd.1
        rw [hframeH (u, v) hnm]
        simpa using hT1
      · exact hTH pr2 hpr2
    · intro p hp
      rw [List.map_cons, List.mem_cons] at hp
      push_neg at hp
      rw [hframeH p hp.2, hframe1 p hp.1]

/-- C5: serializing a graph's stored per-edge activity intervals with
`generate_interactions` (one `+` event per interval start, one `-` event
per interval stop, via the spec-modelled `stream_interactions`) and parsing
the lines back with `parse_interactions` — default node handling and a
timestamp converter that inverts the serialization of every stored endpoint
— reconstructs an equivalent set of per-edge activity intervals: a pair
`(u, v)` is reconstructed as active at timestep `t` exactly when some
stored interval `[start, stop)` of that pair contains `t`. -/
theorem parse_generate_roundtrip (Gs : IntervalGraph) (tc : Conv)
    (hnd : (Gs.map Prod.fst).Nodup)
    (hg : ∀ pr ∈ Gs, goodTok pr.1.1 ∧ goodTok pr.1.2)
    (hwf : ∀ pr ∈ Gs, ivsWFB pr.2 = true)
    (htc : ∀ pr ∈ Gs, ∀ ab ∈ pr.2, tc.run (pyStrInt ab.1) = some ab.1 ∧
      tc.run (pyStrInt ab.2) = some ab.2) :
    ∃ H, parse_interactions hashS none (some tc) none none
        (generate_interactions Gs) = .ok H ∧
      ∀ u v t, (.pint t) ∈ tLookup H (u, v) ↔
        ∃ ab ∈ ivLookup Gs (u, v), ab.1 ≤ t ∧ t < ab.2 := by
  obtain ⟨H, hrun, hT, hfr⟩ := blocks_run tc Gs [] hnd hg hwf htc
    (fun pr _ => rfl)
  refine ⟨H, ?_, ?_⟩
  · rw [generate_interactions_eq]
    unfold parse_interactions resolveCreate
    exact hrun
  · intro u v t
    by_cases hmem : ((u, v) : PyStr × PyStr) ∈ Gs.map Prod.fst
    · obtain ⟨pr, hpr, hpr1⟩ := List.mem_map.mp hmem
      rw [← hpr1, hT pr hpr, ivLookup_eq_of_mem Gs hnd pr hpr]
      simp only [List.mem_map, PyVal.pint.injEq]
      constructor
      · rintro ⟨x, hx, rfl⟩
        exact (mem_expandIvs x pr.2).mp hx
      · intro hx
        exact ⟨t, (mem_expandIvs t pr.2).mpr hx, rfl⟩
    · rw [hfr (u, v) hmem, ivLookup_eq_nil_of_not_mem Gs (u, v) hmem]
      simp [tLookup]

lemma length_intRange (a b : Int) : (intRange a b).length = (b - a).toNat := by
  unfold intRange
  by_cases h : a < b
  · simp [h]
  · simp [h]
    omega

/-- C1 (amended): in `parse_interactions` (default comment handling, no
node conversion, no key reindexing, integer timestamp converter), an input
whose records for pair `(u, v)` are exactly one `+` record at `t0` followed
later by one `-` record at `t1 > t0` — no other records for that pair
anywhere in the input, while other-pair records are arbitrary —
reconstructs the pair's activity timeline as exactly the `t1 - t0`
timesteps of the half-open interval `[t0, t1)`.  The original claim, which
only excluded records *between* the `+` and the `-`, is refuted by
`plus_minus_timeline_counterexample` below. -/
theorem plus_minus_timeline (cm : PyStr) (tc : Conv)
    (A B C : List PyStr) (pl ml u v ts0 ts1 : PyStr) (t0 t1 : Int)
    (H : DynGraph)
    (hpl : tokenizeLine cm pl = [u, v, plusTok, ts0])
    (hml : tokenizeLine cm ml = [u, v, minusTok, ts1])
    (ht0 : tc.run ts0 = some t0) (ht1 : tc.run ts1 = some t1)
    (hlt : t0 < t1)
    (hother : ∀ l ∈ A ++ B ++ C, lineTouches cm (u, v) l = false)
    (hparse : parse_interactions cm none (some tc) none none
      (A ++ pl :: (B ++ ml :: C)) = .ok H) :
    tLookup H (u, v) = ((intRange t0 t1).map .pint) ∧
      (tLookup H (u, v)).length = (t1 - t0).toNat := by
  have hAo : ∀ l ∈ A, lineTouches cm (u, v) l = false :=
    fun l hl => hother l (by simp [hl])
  have hBo : ∀ l ∈ B, lineTouches cm (u, v) l = false :=
    fun l hl => hother l (by simp [hl])
  have hCo : ∀ l ∈ C, lineTouches cm (u, v) l = false :=
    fun l hl => hother l (by simp [hl])
  have hparse2 : runILines cm none (some tc) none []
      (A ++ pl :: (B ++ ml :: C)) = .ok H := hparse
  rw [runILines_append] at hparse2
  cases hA : runILines cm none (some tc) none [] A with
  | error e => rw [hA] at hparse2; simp at hparse2
  | ok G1 =>
    rw [hA] at hparse2
    dsimp only at hparse2
    have hG1 : tLookup G1 (u, v) = [] := by
      rw [runILines_frame cm (some tc) none (u, v) A hAo [] G1 hA]
      rfl
    have hpline : procILine cm none (some tc) none G1 pl =
        .ok (add_interaction G1 u v (.pint t0)) := by
      rw [procILine_evLine cm none (some tc) none G1 pl u v plusTok ts0 hpl]
      exact procIRec_plus tc G1 u v ts0 t0 ht0
    simp only [runILines] at hparse2
    rw [hpline] at hparse2
    dsimp only at hparse2
    have hG2 : tLookup (add_interaction G1 u v (.pint t0)) (u, v) = [.pint t0] := by
      rw [show add_interaction G1 u v (.pint t0) = updG G1 (u, v) (.pint t0) from rfl,
        tLookup_updG_self, hG1]
      rfl
    rw [runILines_append] at hparse2
    cases hB : runILines cm none (some tc) none
        (add_interaction G1 u v (.pint t0)) B with
    | error e => rw [hB] at hparse2; simp at hparse2
    | ok G3 =>
      rw [hB] at hparse2
      dsimp only at hparse2
      have hG3 : tLookup G3 (u, v) = [.pint t0] := by
        rw [runILines_frame cm (some tc) none (u, v) B hBo _ G3 hB, hG2]
      have hlast : (tLookup G3 (u, v)).getLast? = some (.pint t0) := by
        rw [hG3]
        rfl
      have hmline : procILine cm none (some tc) none G3 ml =
          .ok ((intRange t0 t1).foldl
            (fun g t => add_interaction g u v (.pint t)) G3) := by
        rw [procILine_evLine cm none (some tc) none G3 ml u v minusTok ts1 hml]
        rw [procIRec_minus_expand tc G3 u v minusTok ts1 t1 t0 (by decide)
          ht1 hlast hlt]
        exact expandClose_none u v (intRange t0 t1) G3
      simp only [runILines] at hparse2
      rw [hmline] at hparse2
      dsimp only at hparse2
      have hG4 : tLookup ((intRange t0 t1).foldl
          (fun g t => add_interaction g u v (.pint t)) G3) (u, v) =
            ((intRange t0 t1).map .pint) := by
        rw [foldAdd_tLookup_self, hG3]
        have h5 := foldl_insert_range_dup t0 t1 [] (by simp) hlt
        simpa using h5
      have hH : tLookup H (u, v) = ((intRange t0 t1).map .pint) := by
        rw [runILines_frame cm (some tc) none (u, v) C hCo _ H hparse2, hG4]
      refine ⟨hH, ?_⟩
      rw [hH, List.length_map]
      exact length_intRange t0 t1

/-- C1 counterexample: the original claim demanded only that no record for
the pair lie *between* the `+` and the `-`.  The input `1 2 + 10`,
`1 2 + 0`, `1 2 - 3` contains a `+` at `0` followed by a `-` at `3 > 0`
with no intervening records for pair `(1, 2)`, yet the reconstructed
timeline is `{0, 10}`: the earlier start `10` makes `timestamps[-1] = 10`,
the guard `10 < 3` fails, the close is a no-op, and the timeline has `2`
entries rather than `t1 - t0 = 3` — and contains `10`, which lies outside
`[0, 3)`. -/
theorem plus_minus_timeline_counterexample :
    (parse_interactions hashS none (some pyIntConv) none none
        ["1 2 + 10".toList, "1 2 + 0".toList, "1 2 - 3".toList] =
      .ok [(("1".toList, "2".toList), [PyVal.pint 0, .pint 10])]) ∧
    (tLookup [(("1".toList, "2".toList), [PyVal.pint 0, .pint 10])]
        ("1".toList, "2".toList)).length ≠ ((3 : Int) - 0).toNat ∧
    PyVal.pint 10 ∈ tLookup [(("1".toList, "2".toList),
        [PyVal.pint 0, .pint 10])] ("1".toList, "2".toList) ∧
    ¬((0 : Int) ≤ 10 ∧ (10 : Int) < 3) := by
  refine ⟨by decide, by decide, by decide, by decide⟩

/-- C2: a close record (any non-`+` operator) for a pair whose timeline has
no prior registered start, or whose converted timestamp is not strictly
greater than the pair's most recent recorded start, leaves the graph
unchanged and raises nothing — processing the line returns the input graph
(the spec-modelled collaborator reports an empty timeline for a pair with
no prior start). -/
theorem minus_record_noop (cm : PyStr) (tsconv : Option Conv)
    (keys : Option (List (Int × Int))) (G : DynGraph)
    (line u v op ts : PyStr) (sv : PyVal)
    (htok : tokenizeLine cm line = [u, v, op, ts])
    (hop : op ≠ plusTok)
    (hsv : convTs none tsconv ts = .ok sv)
    (hT : tLookup G (u, v) = [] ∨
      ∃ last, (tLookup G (u, v)).getLast? = some last ∧ pyLtB last sv = false) :
    procILine cm none tsconv keys G line = .ok G := by
  rw [procILine_evLine cm none tsconv keys G line u v op ts htok]
  exact procIRec_minus_noop none tsconv keys G u v op ts sv hop hsv rfl hT

/-- C3 counterexample: a five-field snapshot line is not skipped — it
mutates the graph (the source only skips snapshot lines with fewer than
three fields and processes the first four fields of any longer line). -/
theorem snapshot_extra_fields_mutate :
    parse_snapshots hashS none none none none ["1 2 3 4 5".toList] ≠
      parse_snapshots hashS none none none none [] := by
  decide

/-- C3 amended: an interaction line whose post-comment token count is not
exactly four is skipped without mutating the graph, and a snapshot line
with fewer than three tokens is skipped without mutating the graph
(snapshot lines with four or more tokens are processed from their first
four fields). -/
theorem malformed_lines_skipped :
    (∀ cm nodeconv tsconv keys G line, (tokenizeLine cm line).length ≠ 4 →
      procILine cm nodeconv tsconv keys G line = .ok G) ∧
    (∀ cm nodeconv tsconv keys G line, (tokenizeLine cm line).length < 3 →
      procSLine cm nodeconv tsconv keys G line = .ok G) := by
  constructor
  · intro cm nodeconv tsconv keys G line h
    unfold procILine
    cases htok : tokenizeLine cm line with
    | nil => rfl
    | cons a l1 =>
      cases l1 with
      | nil => rfl
      | cons b l2 =>
        cases l2 with
        | nil => rfl
        | cons c l3 =>
          cases l3 with
          | nil => rfl
          | cons d l4 =>
            cases l4 with
            | nil => rw [htok] at h; simp at h
            | cons e l5 => rfl
  · intro cm nodeconv tsconv keys G line h
    unfold procSLine
    cases htok : tokenizeLine cm line with
    | nil => rfl
    | cons a l1 =>
      cases l1 with
      | nil => rfl
      | cons b l2 =>
        cases l2 with
        | nil => rfl
        | cons c l3 =>
          rw [htok] at h
          simp at h
          omega

/-- C4: `read_ids` tests `len(line) == 4` on the raw line string (character
count, newline included) instead of the token count, so the second-to-last
token of the four-token line `9 8 7 6` is not collected, while the
two-token, three-character line `1 2` does have its second-to-last token
collected. -/
theorem read_ids_char_count_bug :
    read_ids (some pyIntConv) ["9 8 7 6".toList] = .ok [(6, 0)] ∧
      read_ids (some pyIntConv) ["1 2".toList] = .ok [(1, 0), (2, 1)] :=
  ⟨by decide, by decide⟩

/-- C6: when the timestamp converter fails, the raised message interpolates
the node-type argument (here `None`), not the timestamp type: parsing
`1 2 + x` with `nodetype=None, timestamptype=int` aborts with
`Failed to convert timestamp x to type None.`. -/
theorem timestamp_failure_names_nodetype :
    parse_interactions hashS none (some pyIntConv) none none
        ["1 2 + x".toList] =
      .error (.typeErr "Failed to convert timestamp x to type None.".toList) := by
  decide

/-- C7: a supplied `create_using` graph is cleared and then populated
exactly as a fresh graph would be, and an object that does not support
clearing raises the `TypeError` regardless of the input lines (so before
any line is processed), in both parsers. -/
theorem create_using_cleared_or_typeerror :
    (∀ cm nodeconv tsconv keys (g : DynGraph) lines,
      parse_interactions cm nodeconv tsconv keys (some (.supplied g)) lines =
        parse_interactions cm nodeconv tsconv keys none lines) ∧
    (∀ cm nodeconv tsconv keys lines,
      parse_interactions cm nodeconv tsconv keys
        (some (CreateUsing.unclearable)) lines = .error (.typeErr cuMsg)) ∧
    (∀ cm nodeconv tsconv keys (g : SnapGraph) lines,
      parse_snapshots cm nodeconv tsconv keys (some (.supplied g)) lines =
        parse_snapshots cm nodeconv tsconv keys none lines) ∧
    (∀ cm nodeconv tsconv keys lines,
      parse_snapshots cm nodeconv tsconv keys
        (some (CreateUsing.unclearable)) lines = .error (.typeErr cuMsg)) :=
  ⟨fun _ _ _ _ _ _ => rfl, fun _ _ _ _ _ => rfl,
   fun _ _ _ _ _ _ => rfl, fun _ _ _ _ _ => rfl⟩

/-- C8: `generate_snapshots` emits one line per stored entry, not one line
per timestep: a stored range `(0, 3)` yields the single line `1 2 (0, 3)`
(the per-timestep loop only rebinds the field list and the yield sits
outside it), while a single-point entry `(5, 5)` yields `1 2 5` plus the
edge attributes. -/
theorem generate_snapshots_one_line_per_entry :
    generate_snapshots [⟨"1".toList, "2".toList, [(0, 3)], []⟩] =
      ["1 2 (0, 3)".toList] ∧
    generate_snapshots [⟨"1".toList, "2".toList, [(5, 5)], ["red".toList]⟩] =
      ["1 2 5 red".toList] :=
  ⟨by decide, by decide⟩

/-- C10: with reindexing active, the close-record expansion ranges over raw
integer timesteps but subscripts the ordinal mapping at each of them: the
file `1 2 + 2` / `1 2 - 5` collects timestamps `{2, 5}` (ordinals
`{2 ↦ 0, 5 ↦ 1}`), stores ordinal `0` for the `+`, and on the `-` iterates
`range(0, 5)` whose first raw timestep `0` is not a key of the mapping —
the read aborts with a `KeyError` on `0`. -/
theorem keys_minus_expansion_keyerror :
    read_interactions hashS none (some pyIntConv) none true
        ["1 2 + 2".toList, "1 2 - 5".toList] = .error (.keyErr (.pint 0)) := by
  decide

/-- C9: requesting timestamp reindexing with no timestamp converter makes
`read_ids` call `None` on the first collected candidate, so both readers
abort with the `TypeError` before any reconstruction, whenever the first
line has at least one token. -/
theorem keys_requires_timestamptype (nodeconv : Option NodeConv)
    (cuI : Option (CreateUsing DynGraph)) (cuS : Option (CreateUsing SnapGraph))
    (l0 : PyStr) (rest : List PyStr)
    (h : pySplitWS (dropEndWS l0) ≠ []) :
    read_interactions hashS nodeconv none cuI true (l0 :: rest) =
      .error (.typeErr "\x27NoneType\x27 object is not callable".toList) ∧
    read_snapshots hashS nodeconv none cuS true (l0 :: rest) =
      .error (.typeErr "\x27NoneType\x27 object is not callable".toList) := by
  obtain ⟨tok, hg⟩ : ∃ tok, (pySplitWS (dropEndWS l0)).getLast? = some tok := by
    cases hgl : (pySplitWS (dropEndWS l0)).getLast? with
    | none => exact absurd (List.getLast?_eq_none_iff.mp hgl) h
    | some t => exact ⟨t, rfl⟩
  have hri : read_ids none (l0 :: rest) =
      .error (.typeErr "\x27NoneType\x27 object is not callable".toList) := by
    simp [read_ids, readIdsGo, hg, applyTs]
  constructor
  · simp [read_interactions, hri]
  · simp [read_snapshots, hri]

/-- Witness for C1 at the spec's example `1 2 + 0` / `1 2 - 3`. -/
theorem plus_minus_timeline_witness :
    ((0 : Int) < 3) ∧
    (parse_interactions hashS none (some pyIntConv) none none
        ([] ++ "1 2 + 0".toList :: ([] ++ "1 2 - 3".toList :: [])) =
      .ok [(("1".toList, "2".toList), [PyVal.pint 0, .pint 1, .pint 2])]) ∧
    tLookup [(("1".toList, "2".toList), [PyVal.pint 0, .pint 1, .pint 2])]
        ("1".toList, "2".toList) = ((intRange 0 3).map .pint) ∧
    (tLookup [(("1".toList, "2".toList), [PyVal.pint 0, .pint 1, .pint 2])]
        ("1".toList, "2".toList)).length = ((3 : Int) - 0).toNat := by
  have h := plus_minus_timeline hashS pyIntConv [] [] []
    ("1 2 + 0".toList) ("1 2 - 3".toList) ("1".toList) ("2".toList)
    ("0".toList) ("3".toList) 0 3
    [(("1".toList, "2".toList), [PyVal.pint 0, .pint 1, .pint 2])]
    (by decide) (by decide) (by decide) (by decide) (by decide)
    (by decide) (by decide)
  exact ⟨by decide, by decide, h.1, h.2⟩

/-- Witness for C2: a close record at `3` against a recorded start `5`, and
the concrete no-op. -/
theorem minus_record_noop_witness :
    (tokenizeLine hashS "1 2 - 3".toList =
      ["1".toList, "2".toList, minusTok, "3".toList]) ∧
    (convTs none (some pyIntConv) "3".toList = .ok (.pint 3)) ∧
    (pyLtB (.pint 5) (.pint 3) = false) ∧
    procILine hashS none (some pyIntConv) none
        [(("1".toList, "2".toList), [PyVal.pint 5])] "1 2 - 3".toList =
      .ok [(("1".toList, "2".toList), [PyVal.pint 5])] := by
  refine ⟨by decide, by decide, by decide, ?_⟩
  exact minus_record_noop hashS (some pyIntConv) none
    [(("1".toList, "2".toList), [PyVal.pint 5])] ("1 2 - 3".toList)
    ("1".toList) ("2".toList) minusTok ("3".toList) (.pint 3)
    (by decide) (by decide) (by decide)
    (Or.inr ⟨.pint 5, by decide, by decide⟩)

/-- Witness for the amended C3 at a three-token interaction line and a
two-token snapshot line. -/
theorem malformed_lines_skipped_witness :
    (tokenizeLine hashS "1 2 3".toList).length ≠ 4 ∧
    procILine hashS none none none ([] : DynGraph) "1 2 3".toList =
      .ok ([] : DynGraph) ∧
    (tokenizeLine hashS "1 2".toList).length < 3 ∧
    procSLine hashS none none none ([] : SnapGraph) "1 2".toList =
      .ok ([] : SnapGraph) := by
  refine ⟨by decide, ?_, by decide, ?_⟩
  · exact malformed_lines_skipped.1 hashS none none none [] _ (by decide)
  · exact malformed_lines_skipped.2 hashS none none none [] _ (by decide)

/-- Witness for C5 at a one-pair graph with the stored interval `[0, 3)`. -/
theorem parse_generate_roundtrip_witness :
    (([(("1".toList, "2".toList), [((0 : Int), (3 : Int))])] :
        IntervalGraph).map Prod.fst).Nodup ∧
    (∀ pr ∈ ([(("1".toList, "2".toList), [((0 : Int), (3 : Int))])] :
        IntervalGraph), goodTok pr.1.1 ∧ goodTok pr.1.2) ∧
    (∀ pr ∈ ([(("1".toList, "2".toList), [((0 : Int), (3 : Int))])] :
        IntervalGraph), ivsWFB pr.2 = true) ∧
    (∀ pr ∈ ([(("1".toList, "2".toList), [((0 : Int), (3 : Int))])] :
        IntervalGraph), ∀ ab ∈ pr.2,
      pyIntConv.run (pyStrInt ab.1) = some ab.1 ∧
        pyIntConv.run (pyStrInt ab.2) = some ab.2) ∧
    ∃ H, parse_interactions hashS none (some pyIntConv) none none
        (generate_interactions
          ([(("1".toList, "2".toList), [((0 : Int), (3 : Int))])] :
            IntervalGraph)) = .ok H ∧
      ∀ u v t, (.pint t) ∈ tLookup H (u, v) ↔
        ∃ ab ∈ ivLookup
            ([(("1".toList, "2".toList), [((0 : Int), (3 : Int))])] :
              IntervalGraph) (u, v), ab.1 ≤ t ∧ t < ab.2 := by
  refine ⟨by decide, by decide, by decide, by decide, ?_⟩
  exact parse_generate_roundtrip
    ([(("1".toList, "2".toList), [((0 : Int), (3 : Int))])] : IntervalGraph)
    pyIntConv (by decide) (by decide) (by decide) (by decide)

/-- Witness for C9 at the one-line file `1 2 + 0`. -/
theorem keys_requires_timestamptype_witness :
    pySplitWS (dropEndWS "1 2 + 0".toList) ≠ [] ∧
    read_interactions hashS none none none true ["1 2 + 0".toList] =
      .error (.typeErr "\x27NoneType\x27 object is not callable".toList) ∧
    read_snapshots hashS none none none true ["1 2 + 0".toList] =
      .error (.typeErr "\x27NoneType\x27 object is not callable".toList) := by
  have h := keys_requires_timestamptype none none none ("1 2 + 0".toList) []
    (by decide)
  exact ⟨by decide, h.1, h.2⟩
